import Mathlib

/-!
Verification of the trackio-tui core against its specification.

The Rust source is shallowly embedded: `f64` values are modelled as exact
rationals (`ℚ`), `i64` as `Int`, `usize` as `Nat`, Rust `String`/`str` as
`List Char` (with UTF-8 byte lengths given by `Char.utf8Size`),
`Vec<T>` as `List T`, and the unordered `HashSet`/`HashMap` containers as
duplicate-free association lists whose list order stands for the
container's (unspecified) iteration order.  Fallible operations (Rust
panics) return `Option`.
-/

namespace Trackio

/-- UTF-8 byte length of a Rust string modelled as a char list
(Rust `str::len`). -/
def strBytes (s : List Char) : Nat := (s.map Char.utf8Size).sum

/-! ## data/models.rs -/

/-- MetricPoint from src/data/models.rs: step is `i64`, value is `f64`
(modelled as `ℚ`), timestamp an optional datetime (modelled as an optional
epoch integer; its actual value never matters to the verified code). -/
structure MetricPoint where
  step : Int
  value : ℚ
  timestamp : Option Int
deriving DecidableEq, Repr

instance : Inhabited MetricPoint := ⟨⟨0, 0, none⟩⟩

/-- Metric from src/data/models.rs. -/
structure Metric where
  name : String
  points : List MetricPoint
deriving DecidableEq, Repr

/-- RunStatus from src/data/models.rs. -/
inductive RunStatus where
  | running | finished | failed | unknown
deriving DecidableEq, Repr

/-- ConfigValue from src/data/models.rs (`Float` modelled as `ℚ`). -/
inductive ConfigValue where
  | int (v : Int)
  | float (v : ℚ)
  | str (v : String)
  | bool (v : Bool)
  | null
deriving DecidableEq, Repr

/-- Config from src/data/models.rs. -/
structure Config where
  key : String
  value : ConfigValue
deriving DecidableEq, Repr

/-- Run from src/data/models.rs. -/
structure Run where
  id : String
  project : String
  name : Option String
  status : RunStatus
  created_at : Option Int
  finished_at : Option Int
  config : List Config
deriving DecidableEq, Repr

/-- Rust byte slice `&s[..n]` of a string: `some` prefix when `n` is a
character boundary, `none` when the slice would split a character
(where Rust panics). -/
def byteSlicePrefix : List Char → Nat → Option (List Char)
  | _, 0 => some []
  | [], _ + 1 => none
  | c :: cs, n + 1 =>
    if c.utf8Size ≤ n + 1 then
      (byteSlicePrefix cs (n + 1 - c.utf8Size)).map (c :: ·)
    else
      none

/-- Run::display_name from src/data/models.rs.  The source computes
`format!("{}...", &self.id[..8])` when the id is longer than 8 bytes;
the byte slice panics (returns `none` here) when byte 8 of the id is not
a character boundary. -/
def Run.display_name (r : Run) : Option String :=
  match r.name with
  | some n => some n
  | none =>
    if strBytes r.id.data > 8 then
      (byteSlicePrefix r.id.data 8).map (fun p => String.mk p ++ "...")
    else
      some r.id

/-- Inner loop of Metric::smoothed: `ema = alpha * value + (1 - alpha) * ema`
for each point, starting from the given initial `ema`. -/
def smoothGo (alpha : ℚ) : ℚ → List MetricPoint → List MetricPoint
  | _, [] => []
  | ema, p :: rest =>
    let e := alpha * p.value + (1 - alpha) * ema
    ⟨p.step, e, p.timestamp⟩ :: smoothGo alpha e rest

/-- Metric::smoothed from src/data/models.rs: returns the points unchanged
when empty or `factor <= 0`, otherwise applies the EMA with
`alpha = 1 - factor.min(0.99)`, seeding `ema` with the first point's value. -/
def Metric.smoothed (m : Metric) (factor : ℚ) : List MetricPoint :=
  match m.points with
  | [] => m.points
  | p :: _ =>
    if factor ≤ 0 then m.points
    else
      let alpha := 1 - min factor (99 / 100)
      smoothGo alpha p.value m.points

/-! ## data/comparison.rs (id-keyed ComparisonState)

`HashSet<String>` is modelled as a duplicate-free `List String` and
`HashMap<String, Vec<Metric>>` as an association list; the list order
models the containers' unspecified iteration order (insertions append). -/

/-- HashMap::get, modelled on an association list. -/
def cacheGet (c : List (String × List Metric)) (k : String) : Option (List Metric) :=
  (c.find? (fun p => p.1 = k)).map (·.2)

/-- HashMap::remove, modelled on an association list. -/
def cacheRemove (c : List (String × List Metric)) (k : String) : List (String × List Metric) :=
  c.filter (fun p => p.1 ≠ k)

/-- HashMap::insert (insert or overwrite), modelled on an association list. -/
def cacheInsert (c : List (String × List Metric)) (k : String) (v : List Metric) :
    List (String × List Metric) :=
  if c.any (fun p => p.1 = k) then
    c.map (fun p => if p.1 = k then (k, v) else p)
  else
    c ++ [(k, v)]

/-- ComparisonState from src/data/comparison.rs: run ids marked for
comparison, and cached metrics keyed by run id. -/
structure ComparisonState where
  marked_runs : List String
  metrics_cache : List (String × List Metric)
deriving DecidableEq, Repr

/-- ComparisonState::new. -/
def ComparisonState.new : ComparisonState := ⟨[], []⟩

/-- ComparisonState::toggle_run: flips membership; unmarking also removes
the cache entry.  Returns the new state and the boolean result
(true when the run is now marked). -/
def ComparisonState.toggle_run (s : ComparisonState) (run_id : String) :
    ComparisonState × Bool :=
  if s.marked_runs.contains run_id then
    (⟨s.marked_runs.filter (fun x => x ≠ run_id), cacheRemove s.metrics_cache run_id⟩, false)
  else
    (⟨s.marked_runs ++ [run_id], s.metrics_cache⟩, true)

/-- ComparisonState::is_marked. -/
def ComparisonState.is_marked (s : ComparisonState) (run_id : String) : Bool :=
  s.marked_runs.contains run_id

/-- ComparisonState::clear. -/
def ComparisonState.clear (_ : ComparisonState) : ComparisonState := ⟨[], []⟩

/-- ComparisonState::cache_metrics: inserts/overwrites the cached metric
list for a run id (unconditionally, as in the source). -/
def ComparisonState.cache_metrics (s : ComparisonState) (run_id : String)
    (metrics : List Metric) : ComparisonState :=
  ⟨s.marked_runs, cacheInsert s.metrics_cache run_id metrics⟩

/-- ComparisonState::get_cached_metrics. -/
def ComparisonState.get_cached_metrics (s : ComparisonState) (run_id : String) :
    Option (List Metric) :=
  cacheGet s.metrics_cache run_id

/-- ComparisonState::get_comparison_metrics: every cached metric of every
marked run other than the selected one, in the marked set's iteration
order (`Option::into_iter().flat_map` is `Option.getD []` then `map`). -/
def ComparisonState.get_comparison_metrics (s : ComparisonState)
    (selected_run_id : String) : List (String × Metric) :=
  (s.marked_runs.filter (fun run_id => run_id ≠ selected_run_id)).flatMap
    (fun run_id => ((cacheGet s.metrics_cache run_id).getD []).map (fun m => (run_id, m)))

/-- ComparisonState::prune_invalid_runs: retain only ids contained in the
valid id set. -/
def ComparisonState.prune_invalid_runs (s : ComparisonState)
    (valid_run_ids : List String) : ComparisonState :=
  ⟨s.marked_runs.filter (fun run_id => valid_run_ids.contains run_id),
   s.metrics_cache.filter (fun p => valid_run_ids.contains p.1)⟩

/-! ## app.rs ComparisonState (index-keyed)

src/app.rs defines its own ComparisonState keyed by run *index*
(`marked_runs: Vec<usize>`, `metrics_cache: HashMap<usize, Vec<Metric>>`),
and the App struct uses this one — not `data::ComparisonState`. -/

/-- ComparisonState from src/app.rs: marked run indices (a `Vec`, so the
list order is exact) and cached metrics keyed by run index. -/
structure AppComparisonState where
  marked_runs : List Nat
  metrics_cache : List (Nat × List Metric)
deriving DecidableEq, Repr

/-- app.rs ComparisonState::new. -/
def AppComparisonState.new : AppComparisonState := ⟨[], []⟩

/-- app.rs ComparisonState::toggle_run: removes the first occurrence of the
index (Vec::remove at its position) or pushes it. -/
def AppComparisonState.toggle_run (s : AppComparisonState) (run_idx : Nat) :
    AppComparisonState × Bool :=
  if s.marked_runs.contains run_idx then
    (⟨s.marked_runs.erase run_idx, s.metrics_cache.filter (fun p => p.1 ≠ run_idx)⟩, false)
  else
    (⟨s.marked_runs ++ [run_idx], s.metrics_cache⟩, true)

/-- app.rs ComparisonState::is_marked. -/
def AppComparisonState.is_marked (s : AppComparisonState) (run_idx : Nat) : Bool :=
  s.marked_runs.contains run_idx

/-- app.rs ComparisonState::prune_invalid_runs: retain indices strictly
below the run count. -/
def AppComparisonState.prune_invalid_runs (s : AppComparisonState)
    (max_run_idx : Nat) : AppComparisonState :=
  ⟨s.marked_runs.filter (fun run_idx => run_idx < max_run_idx),
   s.metrics_cache.filter (fun p => p.1 < max_run_idx)⟩

/-- The ids of the runs currently marked in the app's index-keyed state,
resolved against a run list (as RunList::render resolves marks). -/
def appMarkedIds (runIds : List String) (s : AppComparisonState) : List String :=
  s.marked_runs.map (fun i => runIds.getD i "")

/-! ## ui/metric_selector.rs -/

/-- MAX_SLOTS from src/ui/metric_selector.rs. -/
def MAX_SLOTS : Nat := 9

/-- MetricSlotState from src/ui/metric_selector.rs (`selected_metrics` is a
`HashSet<String>`, modelled as a list). -/
structure MetricSlotState where
  selected_slot : Nat
  window_start : Nat
  selected_metrics : List String
deriving DecidableEq, Repr

/-- MetricSlotState::new. -/
def MetricSlotState.new : MetricSlotState := ⟨0, 0, []⟩

/-- MetricSlotState::selected_metric: `(window_start + selected_slot) %
num_metrics`, or 0 when there are no metrics. -/
def MetricSlotState.selected_metric (s : MetricSlotState) (num_metrics : Nat) : Nat :=
  if num_metrics = 0 then 0
  else (s.window_start + s.selected_slot) % num_metrics

/-- MetricSlotState::num_visible_slots. -/
def MetricSlotState.num_visible_slots (_ : MetricSlotState) (num_metrics : Nat) : Nat :=
  min num_metrics MAX_SLOTS

/-- MetricSlotState::select_slot: sets the slot only when it is below the
visible slot count; otherwise a no-op. -/
def MetricSlotState.select_slot (s : MetricSlotState) (slot num_metrics : Nat) :
    MetricSlotState :=
  if num_metrics = 0 then s
  else if slot < s.num_visible_slots num_metrics then
    { s with selected_slot := slot }
  else s

/-- MetricSlotState::shift_left: no-op when everything fits, otherwise
circular decrement `(window_start + num_metrics - 1) % num_metrics`. -/
def MetricSlotState.shift_left (s : MetricSlotState) (num_metrics : Nat) :
    MetricSlotState :=
  if num_metrics ≤ MAX_SLOTS then s
  else { s with window_start := (s.window_start + num_metrics - 1) % num_metrics }

/-- MetricSlotState::shift_right: no-op when everything fits, otherwise
circular increment `(window_start + 1) % num_metrics`. -/
def MetricSlotState.shift_right (s : MetricSlotState) (num_metrics : Nat) :
    MetricSlotState :=
  if num_metrics ≤ MAX_SLOTS then s
  else { s with window_start := (s.window_start + 1) % num_metrics }

/-- MetricSlotState::clamp: reset on zero metrics, otherwise normalize
`window_start` by modulo and saturate `selected_slot` into the visible
range. -/
def MetricSlotState.clamp (s : MetricSlotState) (num_metrics : Nat) :
    MetricSlotState :=
  if num_metrics = 0 then ⟨0, 0, []⟩
  else
    let ws := s.window_start % num_metrics
    let nv := s.num_visible_slots num_metrics
    let slot := if s.selected_slot ≥ nv then nv - 1 else s.selected_slot
    ⟨slot, ws, s.selected_metrics⟩

/-- MetricSlotState::has_more_left (= has_more_right). -/
def MetricSlotState.has_more_left (_ : MetricSlotState) (num_metrics : Nat) : Bool :=
  num_metrics > MAX_SLOTS

/-! ## ui/chart.rs

`calculate_bounds` folds min/max over all points starting from the
sentinels `f64::MAX` / `f64::MIN = -f64::MAX`, modelled here by the exact
rational value of `f64::MAX`.  (Exact arithmetic: the one place real
`f64` differs is that `f64::MAX + 1.0` rounds back to `f64::MAX`.) -/

/-- The value of `f64::MAX`, as an exact rational. -/
def f64MAX : ℚ := (2 ^ 53 - 1) * 2 ^ 971

/-- One entry of the chart data handed to calculate_bounds:
`(run_idx, color, data_points)` in the source; the color plays no role in
the bounds computation and is omitted. -/
structure ChartSeries where
  run_idx : Nat
  points : List (ℚ × ℚ)

/-- Accumulator of the four running extrema in calculate_bounds. -/
structure BoundsAcc where
  x_min : ℚ
  x_max : ℚ
  y_min : ℚ
  y_max : ℚ

/-- One point-step of the extrema fold in calculate_bounds. -/
def boundsStep (a : BoundsAcc) (p : ℚ × ℚ) : BoundsAcc :=
  ⟨min a.x_min p.1, max a.x_max p.1, min a.y_min p.2, max a.y_max p.2⟩

/-- calculate_bounds from src/ui/chart.rs: fold extrema over every point of
every series; if `min >= max` on an axis set `max = min + 1`; then pad the
y-axis by 5% of its range on each side. -/
def calculate_bounds (data : List ChartSeries) : (ℚ × ℚ) × (ℚ × ℚ) :=
  let a := data.foldl (fun acc s => s.points.foldl boundsStep acc)
    ⟨f64MAX, -f64MAX, f64MAX, -f64MAX⟩
  let xmax := if a.x_min ≥ a.x_max then a.x_min + 1 else a.x_max
  let ymax := if a.y_min ≥ a.y_max then a.y_min + 1 else a.y_max
  let yrange := ymax - a.y_min
  ((a.x_min, xmax), (a.y_min - yrange * (5 / 100), ymax + yrange * (5 / 100)))

/-! ## ui/widgets.rs (case-insensitive search highlighting) -/

/-- Modelled from the Rust standard library (external to this repository):
the full Unicode lowercase mapping used by `char::to_lowercase` and
`str::to_lowercase`, restricted to the character classes exercised here:
ASCII uppercase letters, U+0130 LATIN CAPITAL LETTER I WITH DOT ABOVE
(lowercases to the two characters "i" followed by U+0307 COMBINING DOT
ABOVE), and U+1E9E LATIN CAPITAL LETTER SHARP S (lowercases to U+00DF).
Characters outside these classes (all other characters appearing in this
development are caseless or already lowercase) map to themselves. -/
def charToLowercase (c : Char) : List Char :=
  if 'A' ≤ c ∧ c ≤ 'Z' then [Char.ofNat (c.toNat + 32)]
  else if c = 'İ' then ['i', Char.ofNat 0x0307]
  else if c = 'ẞ' then ['ß']
  else [c]

/-- Rust str::to_lowercase on a char-list string (concatenation of the
per-character lowercase expansions; the final-sigma special case never
arises for the characters modelled here). -/
def strToLower (s : List Char) : List Char := s.flatMap charToLowercase

/-- Recursion core of match_indices; `fuel` bounds the number of steps
(each step consumes at least one character, so the haystack length is
enough fuel) and makes the recursion structural. -/
def matchIndicesAux (pat : List Char) : Nat → List Char → Nat → List Nat
  | 0, _, _ => []
  | _ + 1, [], _ => []
  | fuel + 1, c :: rest, off =>
    if pat.isPrefixOf (c :: rest) then
      off :: matchIndicesAux pat fuel (rest.drop (pat.length - 1)) (off + strBytes pat)
    else
      matchIndicesAux pat fuel rest (off + c.utf8Size)

/-- Rust str::match_indices: byte offsets of the non-overlapping, leftmost
occurrences of `pat`; after a match the search resumes right after the
matched bytes.  (Only called with nonempty `pat`: the caller returns early
on an empty query.) -/
def matchIndicesFrom (pat l : List Char) (off : Nat) : List Nat :=
  matchIndicesAux pat l.length l off

/-- The slow-path byte position mapping of case_insensitive_byte_ranges:
for each byte of each character's lowercased form, the character's starting
byte offset in the original string, with a sentinel for the end position. -/
def lowerToOrigMap : List Char → Nat → List Nat
  | [], orig_idx => [orig_idx]
  | c :: rest, orig_idx =>
    List.replicate (strBytes (charToLowercase c)) orig_idx
      ++ lowerToOrigMap rest (orig_idx + c.utf8Size)

/-- case_insensitive_byte_ranges from src/ui/widgets.rs: lowercase both
strings; when the total byte lengths of the line and its lowercase form
agree, use the lowercase match offsets directly (fast path); otherwise
translate each match span through the lowercase-to-original byte map. -/
def case_insensitive_byte_ranges (line query : List Char) : List (Nat × Nat) :=
  if query = [] then []
  else
    let line_lower := strToLower line
    let query_lower := strToLower query
    if strBytes line = strBytes line_lower then
      (matchIndicesFrom query_lower line_lower 0).map
        (fun s => (s, s + strBytes query_lower))
    else
      let m := lowerToOrigMap line 0
      (matchIndicesFrom query_lower line_lower 0).filterMap (fun s =>
        let e := s + strBytes query_lower
        if e ≤ m.length then
          some (m.getD s 0, m.getD (min e (m.length - 1)) 0)
        else none)

/-- The byte offsets that are character boundaries of a string (0, every
cumulative character end, including the total length). -/
def charBoundaries : List Char → List Nat
  | [] => [0]
  | c :: rest => 0 :: (charBoundaries rest).map (· + c.utf8Size)

/-! ## Theorems -/

/-- Folding the extrema step over points that all equal `(v, w)` leaves the
accumulator `(v, v, w, w)` unchanged. -/
theorem foldl_boundsStep_const (v w : ℚ) :
    ∀ (ps : List (ℚ × ℚ)), (∀ p ∈ ps, p = (v, w)) →
      ps.foldl boundsStep ⟨v, v, w, w⟩ = ⟨v, v, w, w⟩
  | [], _ => rfl
  | p :: t, hall => by
    have hp : p = (v, w) := hall p (List.mem_cons_self p t)
    subst hp
    rw [List.foldl_cons]
    have hstep : boundsStep ⟨v, v, w, w⟩ (v, w) = ⟨v, v, w, w⟩ := by
      simp [boundsStep]
    rw [hstep]
    exact foldl_boundsStep_const v w t (fun q hq => hall q (List.mem_cons_of_mem _ hq))

/-- C2, counterexample: the claim's fixed default `(0,1)` on empty input and
its `y_bounds=(5,6)` for the single point `(5,5)` are both false of
calculate_bounds — the code starts from the `f64::MAX`/`f64::MIN` sentinels
instead of a `(0,1)` default, and pads the y-axis by 5% of its range. -/
theorem c2_bounds_cex :
    (calculate_bounds []).1 ≠ ((0 : ℚ), 1) ∧
    (calculate_bounds [⟨0, [((5 : ℚ), (5 : ℚ))]⟩]).2 ≠ ((5 : ℚ), 6) := by
  constructor <;> norm_num [calculate_bounds, boundsStep, f64MAX]

/-- C2 (amended): with no points at all, calculate_bounds returns the
sentinel-based bounds `x_bounds = (f64::MAX, f64::MAX + 1)` and
`y_bounds = (f64::MAX - 0.05, f64::MAX + 1.05)` (exact arithmetic), not
`(0,1)`; and for a series whose points are all the same in-range point
`(v, w)`, the degenerate maxima are expanded by `+1` and the y-axis is then
padded by 5% of its range on each side: `x_bounds = (v, v + 1)`,
`y_bounds = (w - 0.05, w + 1.05)` — so a single point `(5,5)` yields
`x_bounds = (5, 6)` and `y_bounds = (4.95, 6.05)`, not `(5, 6)`. -/
theorem c2_bounds_amended (i : Nat) (ps : List (ℚ × ℚ)) (v w : ℚ)
    (hne : ps ≠ []) (hall : ∀ p ∈ ps, p = (v, w))
    (hv1 : -f64MAX ≤ v) (hv2 : v ≤ f64MAX)
    (hw1 : -f64MAX ≤ w) (hw2 : w ≤ f64MAX) :
    calculate_bounds [] = ((f64MAX, f64MAX + 1), (f64MAX - 1/20, f64MAX + 21/20)) ∧
    calculate_bounds [⟨i, ps⟩] = ((v, v + 1), (w - 1/20, w + 21/20)) := by
  constructor
  · norm_num [calculate_bounds, boundsStep, f64MAX]
  · obtain ⟨p, rest, rfl⟩ : ∃ p rest, ps = p :: rest := by
      cases ps with
      | nil => exact absurd rfl hne
      | cons a b => exact ⟨a, b, rfl⟩
    have hp : p = (v, w) := hall p (List.mem_cons_self p rest)
    subst hp
    have hfold : ((v, w) :: rest).foldl boundsStep ⟨f64MAX, -f64MAX, f64MAX, -f64MAX⟩
        = ⟨v, v, w, w⟩ := by
      rw [List.foldl_cons]
      have h1 : boundsStep ⟨f64MAX, -f64MAX, f64MAX, -f64MAX⟩ (v, w) = ⟨v, v, w, w⟩ := by
        simp [boundsStep, min_eq_right hv2, max_eq_right hv1, min_eq_right hw2,
          max_eq_right hw1]
      rw [h1]
      exact foldl_boundsStep_const v w rest (fun q hq => hall q (List.mem_cons_of_mem _ hq))
    simp only [calculate_bounds, List.foldl_cons, List.foldl_nil, hfold]
    rw [if_pos (le_refl v), if_pos (le_refl w)]
    rw [Prod.mk.injEq, Prod.mk.injEq, Prod.mk.injEq]
    refine ⟨⟨rfl, rfl⟩, ?_, ?_⟩ <;> ring

/-- C2, witness for the amended theorem at the single point (5,5). -/
theorem c2_bounds_amended_witness :
    calculate_bounds [⟨0, [((5 : ℚ), (5 : ℚ))]⟩]
      = (((5 : ℚ), 6), ((99/20 : ℚ), 121/20)) := by
  have h := (c2_bounds_amended 0 [((5 : ℚ), (5 : ℚ))] 5 5 (by simp)
    (by intro p hp; simpa using hp) (by norm_num [f64MAX]) (by norm_num [f64MAX])
    (by norm_num [f64MAX]) (by norm_num [f64MAX])).2
  rw [h]
  norm_num

/-- C6: for every MetricSlotState and metric count, selected_metric is
`(window_start + selected_slot) % N` and lies in `[0, N)` when `N > 0`,
is `0` when `N = 0`, and the same holds for the state produced by clamp. -/
theorem c6_selected_metric (s : MetricSlotState) (N : Nat) :
    (N = 0 → s.selected_metric N = 0) ∧
    (0 < N → s.selected_metric N = (s.window_start + s.selected_slot) % N
      ∧ s.selected_metric N < N) ∧
    (0 < N → (s.clamp N).selected_metric N
        = ((s.clamp N).window_start + (s.clamp N).selected_slot) % N
      ∧ (s.clamp N).selected_metric N < N) := by
  have key : ∀ (t : MetricSlotState), 0 < N →
      t.selected_metric N = (t.window_start + t.selected_slot) % N
        ∧ t.selected_metric N < N := by
    intro t h
    have hne : N ≠ 0 := Nat.pos_iff_ne_zero.mp h
    constructor
    · simp [MetricSlotState.selected_metric, hne]
    · simp only [MetricSlotState.selected_metric, if_neg hne]
      exact Nat.mod_lt _ h
  exact ⟨fun h => by simp [MetricSlotState.selected_metric, h],
    key s, key (s.clamp N)⟩

/-- C6, witness: the spec's concrete scenario `N = 12`, `window_start = 7`,
`selected_slot = 4` gives `selected_metric = 11 < 12`. -/
theorem c6_selected_metric_witness :
    (MetricSlotState.mk 4 7 []).selected_metric 12 = (7 + 4) % 12
      ∧ (MetricSlotState.mk 4 7 []).selected_metric 12 < 12 :=
  (c6_selected_metric ⟨4, 7, []⟩ 12).2.1 (by decide)

/-- C7, counterexample: from the (constructible) state `window_start = 15`
with 12 metrics, shift_right then shift_left lands on `15 % 12 = 3`, not on
the original `window_start = 15` — the round trip is only exact modulo `N`. -/
theorem c7_shift_cex :
    (((MetricSlotState.mk 0 15 []).shift_right 12).shift_left 12).window_start ≠ 15 := by
  decide

/-- C7 (amended): shift_left and shift_right are no-ops when
`N ≤ MAX_SLOTS`; otherwise they move window_start to
`(window_start + 1) % N` resp. `(window_start + N - 1) % N`; shift_right
immediately followed by shift_left restores `window_start % N` (hence the
original value exactly whenever `window_start < N`, and trivially when
`N ≤ MAX_SLOTS`). -/
theorem c7_shift (s : MetricSlotState) (N : Nat) :
    (N ≤ MAX_SLOTS → s.shift_left N = s ∧ s.shift_right N = s) ∧
    (MAX_SLOTS < N →
      (s.shift_right N).window_start = (s.window_start + 1) % N ∧
      (s.shift_left N).window_start = (s.window_start + N - 1) % N) ∧
    (((s.shift_right N).shift_left N).window_start
      = if N ≤ MAX_SLOTS then s.window_start else s.window_start % N) ∧
    (s.window_start < N → ((s.shift_right N).shift_left N).window_start = s.window_start) := by
  have hmain : ((s.shift_right N).shift_left N).window_start
      = if N ≤ MAX_SLOTS then s.window_start else s.window_start % N := by
    by_cases h : N ≤ MAX_SLOTS
    · simp [MetricSlotState.shift_left, MetricSlotState.shift_right, h]
    · simp only [MetricSlotState.shift_right, MetricSlotState.shift_left, if_neg h]
      have hN : 9 < N := by simpa [MAX_SLOTS] using not_le.mp h
      have h1 : (s.window_start + 1) % N + N - 1 = (s.window_start + 1) % N + (N - 1) := by
        omega
      rw [h1, Nat.mod_add_mod]
      have h2 : s.window_start + 1 + (N - 1) = s.window_start + N := by omega
      rw [h2, Nat.add_mod_right]
  refine ⟨?_, ?_, hmain, ?_⟩
  · intro h
    exact ⟨by simp [MetricSlotState.shift_left, h], by simp [MetricSlotState.shift_right, h]⟩
  · intro h
    have h' : ¬ N ≤ MAX_SLOTS := not_le.mpr h
    exact ⟨by simp [MetricSlotState.shift_right, h'], by simp [MetricSlotState.shift_left, h']⟩
  · intro hw
    rw [hmain]
    by_cases h : N ≤ MAX_SLOTS
    · simp [h]
    · simp [h, Nat.mod_eq_of_lt hw]

/-- C7, witness: with 12 metrics and normalized `window_start = 7`, one
shift_right moves to `(7 + 1) % 12 = 8` and the right-then-left round trip
restores 7 exactly. -/
theorem c7_shift_witness :
    (((MetricSlotState.mk 4 7 []).shift_right 12).window_start = (7 + 1) % 12) ∧
    ((((MetricSlotState.mk 4 7 []).shift_right 12).shift_left 12).window_start = 7) :=
  ⟨((c7_shift ⟨4, 7, []⟩ 12).2.1 (by decide)).1,
   (c7_shift ⟨4, 7, []⟩ 12).2.2.2 (by decide)⟩

/-- The cache invariant of the comparison state: every cached key is a
marked run id. -/
def cacheSubsetMarked (s : ComparisonState) : Prop :=
  ∀ k ∈ s.metrics_cache.map Prod.fst, k ∈ s.marked_runs

/-- Looking up a key in a cache from which that key was removed yields
nothing. -/
theorem cacheGet_cacheRemove_self (c : List (String × List Metric)) (k : String) :
    cacheGet (cacheRemove c k) k = none := by
  induction c with
  | nil => rfl
  | cons p t ih =>
    by_cases h : p.1 = k
    · rw [show cacheRemove (p :: t) k = cacheRemove t k by
        simp [cacheRemove, List.filter_cons, h]]
      exact ih
    · rw [show cacheRemove (p :: t) k = p :: cacheRemove t k by
        simp [cacheRemove, List.filter_cons, h]]
      rw [show cacheGet (p :: cacheRemove t k) k = cacheGet (cacheRemove t k) k by
        simp [cacheGet, List.find?, h]]
      exact ih

/-- The keys of a cache after insertion are the old keys plus the inserted
key. -/
theorem mem_keys_cacheInsert (c : List (String × List Metric)) (k : String)
    (v : List Metric) (x : String) (hx : x ∈ (cacheInsert c k v).map Prod.fst) :
    x ∈ c.map Prod.fst ∨ x = k := by
  rw [cacheInsert] at hx
  by_cases h : c.any (fun p => p.1 = k)
  · rw [if_pos h] at hx
    simp only [List.map_map, List.mem_map, Function.comp] at hx
    obtain ⟨p, hp, hpx⟩ := hx
    by_cases hpk : p.1 = k
    · right
      simpa [hpk] using hpx.symm
    · left
      rw [if_neg hpk] at hpx
      exact List.mem_map.mpr ⟨p, hp, hpx⟩
  · rw [if_neg h] at hx
    simpa using hx

/-- C3, counterexample: cache_metrics inserts unconditionally, so calling it
for an unmarked run id (here on the empty state) produces a state whose
cache keys are not a subset of the marked set. -/
theorem c3_cache_subset_cex :
    ("r" ∈ (ComparisonState.new.cache_metrics "r" []).metrics_cache.map Prod.fst) ∧
    "r" ∉ (ComparisonState.new.cache_metrics "r" []).marked_runs := by
  decide

/-- C3 (amended): toggle_run, prune_invalid_runs and clear preserve the
invariant `cache.keys ⊆ marked`; cache_metrics preserves it provided the
cached run id is marked (the documented caller contract — the unconditional
insert itself does not enforce it); and unmarking a run via toggle_run
removes that run's cache entry in the same call. -/
theorem c3_cache_subset (s : ComparisonState) (r : String) (ms : List Metric)
    (valid : List String) (h : cacheSubsetMarked s) :
    cacheSubsetMarked (s.toggle_run r).1 ∧
    cacheSubsetMarked (s.prune_invalid_runs valid) ∧
    cacheSubsetMarked (s.clear) ∧
    (r ∈ s.marked_runs → cacheSubsetMarked (s.cache_metrics r ms)) ∧
    (r ∈ s.marked_runs → (s.toggle_run r).1.get_cached_metrics r = none) := by
  refine ⟨?_, ?_, ?_, ?_, ?_⟩
  · intro k hk
    by_cases hr : s.marked_runs.contains r
    · simp only [ComparisonState.toggle_run, if_pos hr, cacheRemove] at hk ⊢
      simp only [List.mem_map, List.mem_filter] at hk
      obtain ⟨p, ⟨hp, hpne⟩, hpk⟩ := hk
      simp only [decide_eq_true_eq] at hpne
      simp only [List.mem_filter, decide_eq_true_eq]
      subst hpk
      exact ⟨h p.1 (List.mem_map.mpr ⟨p, hp, rfl⟩), hpne⟩
    · simp only [ComparisonState.toggle_run, if_neg hr] at hk ⊢
      exact List.mem_append.mpr (Or.inl (h k hk))
  · intro k hk
    simp only [ComparisonState.prune_invalid_runs, List.mem_map, List.mem_filter] at hk ⊢
    obtain ⟨p, ⟨hp, hpv⟩, hpk⟩ := hk
    subst hpk
    exact ⟨h p.1 (List.mem_map.mpr ⟨p, hp, rfl⟩), hpv⟩
  · intro k hk
    simp [ComparisonState.clear] at hk
  · intro hr k hk
    simp only [ComparisonState.cache_metrics] at hk ⊢
    rcases mem_keys_cacheInsert s.metrics_cache r ms k hk with hk' | hk'
    · exact h k hk'
    · subst hk'
      exact hr
  · intro hr
    have hc : s.marked_runs.contains r := by simpa using hr
    simp only [ComparisonState.toggle_run, if_pos hc, ComparisonState.get_cached_metrics]
    exact cacheGet_cacheRemove_self s.metrics_cache r

/-- C3, witness: the amended invariant preservation applied to a concrete
marked-and-cached state. -/
theorem c3_cache_subset_witness :
    cacheSubsetMarked ((ComparisonState.mk ["r"] [("r", [])]).toggle_run "q").1 ∧
    (ComparisonState.mk ["r"] [("r", [])]).1 = ["r"] := by
  have h := c3_cache_subset ⟨["r"], [("r", [])]⟩ "q" [] []
    (by intro k hk; simpa using hk)
  exact ⟨h.1, rfl⟩

/-- C8: toggling the same run id twice restores the original marked-set
membership, leaves no cache entry for that id, each call returns true
exactly when the id is marked right after the call, and unmarking removes
the id's cache entry in the same call. -/
theorem c8_toggle_roundtrip (s : ComparisonState) (r : String) :
    (∀ x, x ∈ ((s.toggle_run r).1.toggle_run r).1.marked_runs ↔ x ∈ s.marked_runs) ∧
    ((s.toggle_run r).1.toggle_run r).1.get_cached_metrics r = none ∧
    ((s.toggle_run r).2 = (s.toggle_run r).1.is_marked r) ∧
    (((s.toggle_run r).1.toggle_run r).2
      = ((s.toggle_run r).1.toggle_run r).1.is_marked r) ∧
    (r ∈ s.marked_runs → (s.toggle_run r).1.get_cached_metrics r = none) := by
  by_cases hr : r ∈ s.marked_runs
  · have hnotmem : r ∉ s.marked_runs.filter (fun x => x ≠ r) := by
      simp [List.mem_filter]
    have h1 : (s.toggle_run r).1
        = ⟨s.marked_runs.filter (fun x => x ≠ r), cacheRemove s.metrics_cache r⟩ := by
      simp [ComparisonState.toggle_run, hr]
    have h2 : ((s.toggle_run r).1.toggle_run r).1
        = ⟨s.marked_runs.filter (fun x => x ≠ r) ++ [r], cacheRemove s.metrics_cache r⟩ := by
      rw [h1]
      simp [ComparisonState.toggle_run, hnotmem]
    refine ⟨?_, ?_, ?_, ?_, ?_⟩
    · intro x
      rw [h2]
      simp only [List.mem_append, List.mem_filter, List.mem_singleton, decide_eq_true_eq]
      constructor
      · rintro (⟨hx, _⟩ | rfl)
        · exact hx
        · exact hr
      · intro hx
        by_cases hxr : x = r
        · exact Or.inr hxr
        · exact Or.inl ⟨hx, hxr⟩
    · rw [h2]
      exact cacheGet_cacheRemove_self s.metrics_cache r
    · rw [h1]
      simp [ComparisonState.toggle_run, hr, ComparisonState.is_marked, List.mem_filter]
    · rw [h2]
      rw [h1]
      simp [ComparisonState.toggle_run, hnotmem, ComparisonState.is_marked]
    · intro _
      rw [h1]
      exact cacheGet_cacheRemove_self s.metrics_cache r
  · have h1 : (s.toggle_run r).1 = ⟨s.marked_runs ++ [r], s.metrics_cache⟩ := by
      simp [ComparisonState.toggle_run, hr]
    have hmem : r ∈ s.marked_runs ++ [r] := List.mem_append.mpr (Or.inr (by simp))
    have h2 : ((s.toggle_run r).1.toggle_run r).1
        = ⟨(s.marked_runs ++ [r]).filter (fun x => x ≠ r),
           cacheRemove s.metrics_cache r⟩ := by
      rw [h1]
      simp [ComparisonState.toggle_run, hmem]
    refine ⟨?_, ?_, ?_, ?_, ?_⟩
    · intro x
      rw [h2]
      simp only [List.mem_filter, List.mem_append, List.mem_singleton, decide_eq_true_eq]
      constructor
      · rintro ⟨hx | rfl, hxr⟩
        · exact hx
        · exact absurd rfl hxr
      · intro hx
        have hxr : x ≠ r := fun hxr => hr (hxr ▸ hx)
        exact ⟨Or.inl hx, hxr⟩
    · rw [h2]
      exact cacheGet_cacheRemove_self s.metrics_cache r
    · rw [h1]
      simp [ComparisonState.toggle_run, hr, ComparisonState.is_marked, hmem]
    · rw [h2]
      rw [h1]
      simp [ComparisonState.toggle_run, hmem, ComparisonState.is_marked, List.mem_filter]
    · intro hmem'
      exact absurd hmem' hr

/-- C8, witness: the round trip at a state in which the run is marked and
cached. -/
theorem c8_toggle_roundtrip_witness :
    ("r" ∈ (((ComparisonState.mk ["r"] [("r", [])]).toggle_run "r").1.toggle_run
      "r").1.marked_runs ↔ "r" ∈ (ComparisonState.mk ["r"] [("r", [])]).marked_runs) ∧
    (((ComparisonState.mk ["r"] [("r", [])]).toggle_run "r").1.get_cached_metrics "r"
      = none) :=
  ⟨(c8_toggle_roundtrip ⟨["r"], [("r", [])]⟩ "r").1 "r",
   (c8_toggle_roundtrip ⟨["r"], [("r", [])]⟩ "r").2.2.2.2 (by decide)⟩

/-- Lexicographic byte-order comparison of strings as char lists (an
executable rendering of the usual string order, used only by the spec-side
sorted view below). -/
def strLeB : List Char → List Char → Bool
  | [], _ => true
  | _ :: _, [] => false
  | a :: as, b :: bs =>
    if a.toNat < b.toNat then true
    else if b.toNat < a.toNat then false
    else strLeB as bs

/-- Modelled from the spec's words, for comparison with the source
definition: a comparison view whose output is deterministically sorted by
run id before use (ascending insertion sort on the marked ids). -/
def ComparisonState.get_comparison_metrics_spec_sorted (s : ComparisonState)
    (selected_run_id : String) : List (String × Metric) :=
  ((s.marked_runs.filter (fun run_id => run_id ≠ selected_run_id)).insertionSort
      (fun a b => strLeB a.data b.data = true)).flatMap
    (fun run_id => ((cacheGet s.metrics_cache run_id).getD []).map (fun m => (run_id, m)))

/-- C4, counterexample: get_comparison_metrics follows the marked set's
iteration order (modelled by the state's list order, here the insertion
order "b" then "a") and never sorts, so its output is not ascending in run
id and differs from the spec-side sorted view on the same state. -/
theorem c4_comparison_order_cex :
    ((((((ComparisonState.new.toggle_run "b").1.toggle_run "a").1.cache_metrics
        "b" [⟨"loss", []⟩]).cache_metrics "a"
        [⟨"acc", []⟩]).get_comparison_metrics "z").map Prod.fst = ["b", "a"]) ∧
    ¬ List.Sorted (fun a b : String => a ≤ b)
      ((((((ComparisonState.new.toggle_run "b").1.toggle_run "a").1.cache_metrics
        "b" [⟨"loss", []⟩]).cache_metrics "a"
        [⟨"acc", []⟩]).get_comparison_metrics "z").map Prod.fst) ∧
    (((((ComparisonState.new.toggle_run "b").1.toggle_run "a").1.cache_metrics
        "b" [⟨"loss", []⟩]).cache_metrics "a"
        [⟨"acc", []⟩]).get_comparison_metrics "z"
      ≠ (((((ComparisonState.new.toggle_run "b").1.toggle_run "a").1.cache_metrics
        "b" [⟨"loss", []⟩]).cache_metrics "a"
        [⟨"acc", []⟩]).get_comparison_metrics_spec_sorted "z")) := by
  have hids : ((((((ComparisonState.new.toggle_run "b").1.toggle_run
      "a").1.cache_metrics "b" [⟨"loss", []⟩]).cache_metrics "a"
      [⟨"acc", []⟩]).get_comparison_metrics "z").map Prod.fst = ["b", "a"]) := by
    decide
  refine ⟨hids, ?_, ?_⟩
  · rw [hids]
    simp only [List.sorted_cons, List.mem_singleton, forall_eq]
    intro h
    have hba := h.1
    rw [String.le_iff_toList_le] at hba
    exact absurd hba (by decide)
  · intro h
    have : (["b", "a"] : List String) = ["a", "b"] := by
      have hs : (((((ComparisonState.new.toggle_run "b").1.toggle_run
          "a").1.cache_metrics "b" [⟨"loss", []⟩]).cache_metrics "a"
          [⟨"acc", []⟩]).get_comparison_metrics_spec_sorted "z").map Prod.fst
          = ["a", "b"] := by decide
      rw [← hids, h, hs]
    simp at this

/-- C4 (amended): the comparison view contains exactly the cached metrics
of every marked run other than the excluded one — `(r, m)` is yielded iff
`r` is marked, `r` differs from the excluded id, and `m` is among `r`'s
cached metrics — but in the marked set's unspecified iteration order, not
in a deterministically sorted order. -/
theorem c4_comparison_view_members (s : ComparisonState) (sel r : String) (m : Metric) :
    (r, m) ∈ s.get_comparison_metrics sel ↔
      r ∈ s.marked_runs ∧ r ≠ sel ∧ m ∈ (cacheGet s.metrics_cache r).getD [] := by
  simp only [ComparisonState.get_comparison_metrics, List.mem_flatMap, List.mem_filter,
    List.mem_map, Prod.mk.injEq, decide_eq_true_eq]
  constructor
  · rintro ⟨x, ⟨hx, hxsel⟩, m', hm', hxr, hmm⟩
    subst hxr
    subst hmm
    exact ⟨hx, hxsel, hm'⟩
  · rintro ⟨h1, h2, h3⟩
    exact ⟨r, ⟨h1, h2⟩, m, h3, rfl, rfl⟩

/-- C4, witness: the membership characterization evaluated at a concrete
state. -/
theorem c4_comparison_view_members_witness :
    ("b", (⟨"loss", []⟩ : Metric)) ∈
      (ComparisonState.mk ["b"] [("b", [⟨"loss", []⟩])]).get_comparison_metrics "z" :=
  (c4_comparison_view_members ⟨["b"], [("b", [⟨"loss", []⟩])]⟩ "z" "b" ⟨"loss", []⟩).mpr
    ⟨by decide, by decide, by decide⟩

/-- C1: the application keys comparison state by list position, not by run
id.  Concrete refresh scenario: with runs `["A", "B"]` the user marks the
run at index 1 (id "B"); a refresh reorders the runs to `["B", "A"]` and the
app prunes against the new length.  Afterwards the marked index still
resolves to index 1 — now run "A" — and run "B" (whose id is still present)
is no longer marked, contradicting the claimed id-keyed behaviour. -/
theorem c1_index_keyed_marking_breaks_on_reorder :
    (appMarkedIds ["A", "B"] (AppComparisonState.new.toggle_run 1).1 = ["B"]) ∧
    (appMarkedIds ["B", "A"]
      (((AppComparisonState.new.toggle_run 1).1).prune_invalid_runs 2) = ["A"]) ∧
    ("B" ∈ (["B", "A"] : List String)) ∧
    ("B" ∉ appMarkedIds ["B", "A"]
      (((AppComparisonState.new.toggle_run 1).1).prune_invalid_runs 2)) := by
  decide

/-- C9: the fast path of case_insensitive_byte_ranges is taken whenever the
total byte lengths of the line and its lowercase form agree, but per-
character length changes can compensate: in the line "İẞa" the char 'İ'
lowercases one byte longer and 'ẞ' one byte shorter, the totals agree, and
searching for "ß" yields the byte range (3, 5) — yet byte 3 is not a
character boundary of the original line (its boundaries are 0, 2, 5, 6), so
slicing the original line with this range splits the UTF-8 encoding of 'ẞ'
(a panic in ConfigPanel::render). -/
theorem c9_fast_path_boundary_bug :
    (strBytes ['İ', 'ẞ', 'a'] = strBytes (strToLower ['İ', 'ẞ', 'a'])) ∧
    (case_insensitive_byte_ranges ['İ', 'ẞ', 'a'] ['ß'] = [(3, 5)]) ∧
    ((charBoundaries ['İ', 'ẞ', 'a']).contains 3 = false) := by
  decide

/-- C10: Run::display_name byte-slices the id with `&self.id[..8]`, which
panics when byte 8 of the id is not a character boundary.  The 10-byte id
"aaaaaaa日" (seven ASCII bytes followed by a three-byte character) panics
(`none` in the embedding), while an all-ASCII long id and a named run
behave as the claim describes. -/
theorem c10_display_name_byte_slice :
    (Run.display_name ⟨"aaaaaaa日", "p", none, RunStatus.unknown, none, none, []⟩
      = none) ∧
    (Run.display_name ⟨"abcdefghij", "p", none, RunStatus.unknown, none, none, []⟩
      = some "abcdefgh...") ∧
    (Run.display_name ⟨"abcdefghij", "p", some "named", RunStatus.unknown, none, none, []⟩
      = some "named") ∧
    (Run.display_name ⟨"short", "p", none, RunStatus.unknown, none, none, []⟩
      = some "short") := by
  decide

/-- The EMA loop preserves the list length. -/
theorem smoothGo_length (a : ℚ) :
    ∀ (l : List MetricPoint) (e : ℚ), (smoothGo a e l).length = l.length
  | [], _ => rfl
  | p :: t, e => by
    simp only [smoothGo, List.length_cons]
    rw [smoothGo_length a t]

/-- The EMA loop preserves every point's step. -/
theorem smoothGo_step (a : ℚ) (d : MetricPoint) :
    ∀ (l : List MetricPoint) (e : ℚ) (i : Nat),
      ((smoothGo a e l).getD i d).step = (l.getD i d).step
  | [], _, _ => rfl
  | _ :: _, _, 0 => rfl
  | p :: t, e, i + 1 => by
    simp only [smoothGo, List.getD_cons_succ]
    exact smoothGo_step a d t _ i

/-- The values produced by the EMA loop satisfy the EMA recurrence:
each output value is `a * raw + (1 - a) * previous_output`. -/
theorem smoothGo_rec_value (a : ℚ) (d : MetricPoint) :
    ∀ (l : List MetricPoint) (e : ℚ) (i : Nat), i + 1 < l.length →
      ((smoothGo a e l).getD (i + 1) d).value
        = a * ((l.getD (i + 1) d).value)
          + (1 - a) * (((smoothGo a e l).getD i d).value)
  | p :: q :: t, e, 0, _ => rfl
  | [p], _, 0, h => absurd h (by simp)
  | p :: t, e, i + 1, h => by
    have ht : i + 1 < t.length := by
      simpa using Nat.lt_of_succ_lt_succ h
    simp only [smoothGo, List.getD_cons_succ]
    exact smoothGo_rec_value a d t _ i ht

/-- C5: smoothing with factor 0 is the identity; factors above 0.99 are
clamped to 0.99; the length and every point's step are preserved for every
factor; and for an effective factor in `(0, 0.99]`, with
`alpha = 1 - factor`, the first smoothed value equals the first raw value
and every later smoothed value is `alpha * raw + (1 - alpha) *
previous_smoothed`. -/
theorem c5_smoothing (m : Metric) (f : ℚ) :
    (m.smoothed 0 = m.points) ∧
    (99/100 < f → m.smoothed f = m.smoothed (99/100)) ∧
    ((m.smoothed f).length = m.points.length) ∧
    (∀ i, ((m.smoothed f).getD i default).step = (m.points.getD i default).step) ∧
    (0 < f → f ≤ 99/100 →
      (((m.smoothed f).getD 0 default).value = ((m.points.getD 0 default)).value) ∧
      (∀ i, i + 1 < m.points.length →
        ((m.smoothed f).getD (i + 1) default).value
          = (1 - f) * ((m.points.getD (i + 1) default).value)
            + (1 - (1 - f)) * (((m.smoothed f).getD i default).value))) := by
  rcases hp : m.points with _ | ⟨p, t⟩
  · refine ⟨?_, ?_, ?_, ?_, ?_⟩
    · simp [Metric.smoothed, hp]
    · intro _
      simp [Metric.smoothed, hp]
    · simp [Metric.smoothed, hp]
    · intro i
      simp [Metric.smoothed, hp]
    · intro _ _
      constructor
      · simp [Metric.smoothed, hp]
      · intro i hi
        simp at hi
  · have hsm0 : m.smoothed 0 = p :: t := by
      simp [Metric.smoothed, hp]
    refine ⟨hsm0, ?_, ?_, ?_, ?_⟩
    · intro hf
      have hf0 : ¬ f ≤ 0 := by linarith
      have hmin : min f (99/100) = (99/100 : ℚ) := min_eq_right (le_of_lt hf)
      simp only [Metric.smoothed, hp, if_neg hf0, hmin]
      rw [if_neg (by norm_num : ¬ (99/100 : ℚ) ≤ 0), min_self]
    · by_cases hf : f ≤ 0
      · simp [Metric.smoothed, hp, hf]
      · simp only [Metric.smoothed, hp, if_neg hf]
        rw [smoothGo_length]
    · intro i
      by_cases hf : f ≤ 0
      · simp [Metric.smoothed, hp, hf]
      · simp only [Metric.smoothed, hp, if_neg hf]
        rw [smoothGo_step]
    · intro hf0 hf1
      have hf : ¬ f ≤ 0 := by linarith
      have hmin : min f (99/100) = f := min_eq_left hf1
      have hsm : m.smoothed f = smoothGo (1 - f) p.value (p :: t) := by
        simp only [Metric.smoothed, hp, if_neg hf, hmin]
      constructor
      · rw [hsm]
        show (1 - f) * p.value + (1 - (1 - f)) * p.value = p.value
        ring
      · intro i hi
        rw [hsm]
        exact smoothGo_rec_value (1 - f) default (p :: t) p.value i hi

/-- C5, witness: for the metric with points (step 0, value 1) and (step 1,
value 3) and factor 1/2, the first smoothed value is the raw value and the
second satisfies the EMA recurrence. -/
theorem c5_smoothing_witness :
    (0 < (1 : ℚ)/2) ∧ ((1 : ℚ)/2 ≤ 99/100) ∧
    (((Metric.mk "loss" [⟨0, 1, none⟩, ⟨1, 3, none⟩]).smoothed (1/2)).getD 0
        default).value
      = (((Metric.mk "loss" [⟨0, 1, none⟩, ⟨1, 3, none⟩]).points.getD 0
        default)).value ∧
    (((Metric.mk "loss" [⟨0, 1, none⟩, ⟨1, 3, none⟩]).smoothed (1/2)).getD 1
        default).value
      = (1 - 1/2) * (((Metric.mk "loss" [⟨0, 1, none⟩, ⟨1, 3, none⟩]).points.getD 1
          default).value)
        + (1 - (1 - 1/2)) * ((((Metric.mk "loss"
          [⟨0, 1, none⟩, ⟨1, 3, none⟩]).smoothed (1/2)).getD 0 default).value) := by
  refine ⟨by norm_num, by norm_num, ?_, ?_⟩
  · exact ((c5_smoothing ⟨"loss", [⟨0, 1, none⟩, ⟨1, 3, none⟩]⟩ (1/2)).2.2.2.2
      (by norm_num) (by norm_num)).1
  · exact ((c5_smoothing ⟨"loss", [⟨0, 1, none⟩, ⟨1, 3, none⟩]⟩ (1/2)).2.2.2.2
      (by norm_num) (by norm_num)).2 0 (by simp)

end Trackio
